import Mathlib

/-!
Verification of the key-value ledger state-transition and validation engine
described in spec.md, against the repository's sources.  The repository ships
the test fixtures (wasm_for_tests/wasm_source/src/lib.rs) and a CLI entry
point; the engine itself (storage key model, signed envelope, execution
contexts, nested evaluator, commit protocol) is specified but its code is not
in the tree, so those parts are modelled from the spec, as marked on each
definition.  Fixtures are embedded directly from lib.rs.
-/

namespace Namada

/-- An address: an opaque identifier (spec section 3), modelled as its
character representation. -/
abbrev Address := List Char

/-- Modelled from the spec: a key segment is "a string literal or an address
encoding" (spec section 3, Storage Key Model).  The engine's segment type is
not in src/. -/
inductive DbKeySeg where
  | addrSeg (a : Address)
  | strSeg (s : List Char)
deriving DecidableEq, Repr

/-- Modelled from the spec: a Key is an ordered, finite sequence of segments
(spec section 3).  The engine's Key type is not in src/. -/
structure Key where
  segments : List DbKeySeg
deriving DecidableEq, Repr

/-- A character list containing no segment separator. -/
def noSlash (s : List Char) : Prop := '/' ∉ s

instance (s : List Char) : Decidable (noSlash s) := by
  unfold noSlash; infer_instance

/-- Split a character list on the separator character.  Always returns at
least one piece. -/
def splitSlash : List Char → List (List Char)
  | [] => [[]]
  | c :: cs =>
    if c = '/' then [] :: splitSlash cs
    else
      match splitSlash cs with
      | [] => [[c]]
      | p :: ps => (c :: p) :: ps

/-- Join pieces with the separator character: inverse of splitSlash on
separator-free pieces. -/
def joinSlash : List (List Char) → List Char
  | [] => []
  | [s] => s
  | s :: s₂ :: rest => s ++ '/' :: joinSlash (s₂ :: rest)

/-- Modelled from the spec: parsing of one textual segment.  An empty segment
is malformed; an address encoding is distinguished from a string literal by a
reserved leading character whose body must be nonempty. -/
def parseSeg : List Char → Option DbKeySeg
  | [] => none
  | c :: rest =>
    if c = '#' then
      if rest = [] then none else some (.addrSeg rest)
    else some (.strSeg (c :: rest))

/-- Render one segment back to text. -/
def segToText : DbKeySeg → List Char
  | .addrSeg a => '#' :: a
  | .strSeg s => s

/-- Parse every piece, failing if any piece is malformed. -/
def parseSegs : List (List Char) → Option (List DbKeySeg)
  | [] => some []
  | s :: rest =>
    match parseSeg s, parseSegs rest with
    | some seg, some segs => some (seg :: segs)
    | _, _ => none

/-- The key-model error taxonomy (spec sections 4.1 and 7). -/
inductive KeyError where
  | invalidKeyFormat
deriving DecidableEq, Repr

/-- Modelled from the spec: Key.parse splits the text into segments and fails
with InvalidKeyFormat on malformed segment syntax (spec section 4.1). -/
def Key.parse (t : List Char) : Except KeyError Key :=
  match parseSegs (splitSlash t) with
  | some segs => .ok ⟨segs⟩
  | none => .error .invalidKeyFormat

/-- Modelled from the spec: canonical string form of a Key (spec
section 4.1). -/
def Key.to_string (k : Key) : List Char :=
  joinSlash (k.segments.map segToText)

theorem splitSlash_ne_nil (t : List Char) : splitSlash t ≠ [] := by
  cases t with
  | nil => simp [splitSlash]
  | cons c cs =>
    simp only [splitSlash]
    split
    · simp
    · split <;> simp

theorem splitSlash_noSlash (s : List Char) (h : noSlash s) :
    splitSlash s = [s] := by
  induction s with
  | nil => rfl
  | cons c cs ih =>
    have hc : c ≠ '/' := by
      intro hc; exact h (by simp [hc])
    have hcs : noSlash cs := by
      intro hm; exact h (List.mem_cons_of_mem _ hm)
    simp only [splitSlash, if_neg hc, ih hcs]

theorem splitSlash_append (s t : List Char) (h : noSlash s) :
    splitSlash (s ++ '/' :: t) = s :: splitSlash t := by
  induction s with
  | nil => simp [splitSlash]
  | cons c cs ih =>
    have hc : c ≠ '/' := by
      intro hc; exact h (by simp [hc])
    have hcs : noSlash cs := by
      intro hm; exact h (List.mem_cons_of_mem _ hm)
    simp only [List.cons_append, splitSlash, if_neg hc, List.append_eq, ih hcs]

theorem splitSlash_joinSlash (ps : List (List Char)) (hne : ps ≠ [])
    (h : ∀ p ∈ ps, noSlash p) : splitSlash (joinSlash ps) = ps := by
  induction ps with
  | nil => exact absurd rfl hne
  | cons p rest ih =>
    cases rest with
    | nil =>
      simp only [joinSlash]
      exact splitSlash_noSlash p (h p (by simp))
    | cons q qs =>
      simp only [joinSlash]
      rw [splitSlash_append p _ (h p (by simp))]
      rw [ih (by simp) (fun r hr => h r (List.mem_cons_of_mem _ hr))]

theorem mem_splitSlash_noSlash (t : List Char) :
    ∀ p ∈ splitSlash t, noSlash p := by
  induction t with
  | nil =>
    intro p hp
    simp [splitSlash] at hp
    subst hp; intro hm; simp at hm
  | cons c cs ih =>
    intro p hp
    simp only [splitSlash] at hp
    by_cases hc : c = '/'
    · rw [if_pos hc] at hp
      rcases List.mem_cons.mp hp with h | h
      · subst h; intro hm; simp at hm
      · exact ih p h
    · rw [if_neg hc] at hp
      rcases hs : splitSlash cs with _ | ⟨q, qs⟩
      · exact absurd hs (splitSlash_ne_nil cs)
      · rw [hs] at hp
        rcases List.mem_cons.mp hp with h | h
        · subst h
          intro hm
          rcases List.mem_cons.mp hm with h | h
          · exact hc h.symm
          · exact ih q (by rw [hs]; simp) h
        · exact ih p (by rw [hs]; simp [h])

theorem parseSeg_segToText {s : List Char} {seg : DbKeySeg}
    (h : parseSeg s = some seg) : segToText seg = s := by
  cases s with
  | nil => simp [parseSeg] at h
  | cons c rest =>
    simp only [parseSeg] at h
    by_cases hc : c = '#'
    · rw [if_pos hc] at h
      by_cases hr : rest = []
      · rw [if_pos hr] at h; cases h
      · rw [if_neg hr] at h
        cases h
        simp [segToText, hc]
    · rw [if_neg hc] at h
      cases h
      simp [segToText]

theorem parseSeg_roundtrip {s : List Char} {seg : DbKeySeg}
    (h : parseSeg s = some seg) : parseSeg (segToText seg) = some seg := by
  rw [parseSeg_segToText h]; exact h

theorem parseSegs_roundtrip {ps : List (List Char)} {segs : List DbKeySeg}
    (h : parseSegs ps = some segs) :
    segs.map segToText = ps ∧ parseSegs (segs.map segToText) = some segs := by
  induction ps generalizing segs with
  | nil =>
    cases h
    exact ⟨rfl, rfl⟩
  | cons p rest ih =>
    simp only [parseSegs] at h
    rcases hp : parseSeg p with _ | seg <;> rw [hp] at h
    · cases h
    · rcases hr : parseSegs rest with _ | segs₂ <;> rw [hr] at h
      · cases h
      · cases h
        obtain ⟨hmap, hps⟩ := ih hr
        constructor
        · simp [List.map_cons, hmap, parseSeg_segToText hp]
        · simp only [List.map_cons, parseSegs, parseSeg_roundtrip hp, hps]

/-! ## Storage, write-set and execution contexts

Modelled from the spec (sections 3, 4.3, 4.4): the Transaction and VP
execution contexts are not in src/; only the fixtures that call them are. -/

/-- A stored value: raw bytes. -/
abbrev Value := List Nat

/-- The committed key-value backend, modelled as an association list where
the first matching entry wins. -/
abbrev Storage := List (Key × Value)

/-- Look a key up in the committed store. -/
def storLookup (st : Storage) (k : Key) : Option Value :=
  match st with
  | [] => none
  | (k₂, v) :: rest => if k₂ = k then some v else storLookup rest k

/-- Remove every entry for a key from the committed store. -/
def storRemove (st : Storage) (k : Key) : Storage :=
  match st with
  | [] => []
  | (k₂, v) :: rest =>
    if k₂ = k then storRemove rest k else (k₂, v) :: storRemove rest k

/-- A write-set entry: a new value or a tombstone (spec section 3). -/
inductive WriteOp where
  | write (v : Value)
  | delete
deriving DecidableEq, Repr

/-- The write-set: most recent staged operation first. -/
abbrev WriteSet := List (Key × WriteOp)

/-- The most recent staged operation for a key, if any. -/
def wsLookup (ws : WriteSet) (k : Key) : Option WriteOp :=
  match ws with
  | [] => none
  | (k₂, op) :: rest => if k₂ = k then some op else wsLookup rest k

/-- Apply a write-set to a committed store, oldest entry first so that the
most recent staged operation for each key wins. -/
def applyWs (st : Storage) (ws : WriteSet) : Storage :=
  ws.foldr
    (fun e acc =>
      match e.2 with
      | .write v => (e.1, v) :: storRemove acc e.1
      | .delete => storRemove acc e.1)
    st

/-- The execution context, mirroring the single Ctx type handed to both
transaction code (mutably) and VP code (immutably) in lib.rs: the committed
pre-state, the write-set staged so far, and the declared verifiers. -/
structure Ctx where
  pre : Storage
  writeSet : WriteSet
  verifiers : List Address
deriving DecidableEq, Repr

/-- Modelled from the spec (section 4.3): a transaction read returns the
staged value if present, else the committed value — i.e. a lookup in the
write-set applied on top of the pre-state. -/
def Ctx.read (ctx : Ctx) (k : Key) : Option Value :=
  storLookup (applyWs ctx.pre ctx.writeSet) k

/-- Modelled from the spec (section 4.3): stage a value for a key. -/
def Ctx.write (ctx : Ctx) (k : Key) (v : Value) : Ctx :=
  { ctx with writeSet := (k, .write v) :: ctx.writeSet }

/-- Modelled from the spec (section 4.3): stage a tombstone for a key. -/
def Ctx.delete (ctx : Ctx) (k : Key) : Ctx :=
  { ctx with writeSet := (k, .delete) :: ctx.writeSet }

/-- Modelled from the spec (section 3): the changed-keys set is derived from
the write-set. -/
def Ctx.changedKeys (ctx : Ctx) : List Key :=
  (ctx.writeSet.map Prod.fst).dedup

/-- Modelled from the spec (section 4.4): a VP read observes the
post-transaction state — the write-set applied on top of the pre-state. -/
def Ctx.vpRead (ctx : Ctx) (k : Key) : Option Value :=
  storLookup (applyWs ctx.pre ctx.writeSet) k

/-- Modelled from the spec (section 4.4): read_pre observes the strictly
pre-transaction state, ignoring the write-set entirely. -/
def Ctx.read_pre (ctx : Ctx) (k : Key) : Option Value :=
  storLookup ctx.pre k

theorem storLookup_storRemove (st : Storage) (k k₂ : Key) :
    storLookup (storRemove st k) k₂ =
      if k = k₂ then none else storLookup st k₂ := by
  induction st with
  | nil => simp [storRemove, storLookup]
  | cons e rest ih =>
    obtain ⟨k₃, v⟩ := e
    by_cases h₃ : k₃ = k
    · subst h₃
      rw [storRemove, if_pos rfl, ih]
      by_cases h₂ : k₃ = k₂
      · subst h₂; simp
      · simp [storLookup, if_neg h₂]
    · rw [storRemove, if_neg h₃]
      by_cases h₂ : k₃ = k₂
      · subst h₂
        have hk : k ≠ k₃ := fun h => h₃ h.symm
        simp [storLookup, if_neg hk]
      · simp [storLookup, if_neg h₂, ih]

/-- The central storage lemma: reading through the write-set applied on top
of a store agrees with consulting the write-set first and the store second
(spec sections 4.3 and 4.4). -/
theorem storLookup_applyWs (st : Storage) (ws : WriteSet) (k : Key) :
    storLookup (applyWs st ws) k =
      match wsLookup ws k with
      | some (.write v) => some v
      | some .delete => none
      | none => storLookup st k := by
  induction ws with
  | nil => simp [applyWs, wsLookup]
  | cons e rest ih =>
    obtain ⟨k₂, op⟩ := e
    show storLookup
        (match op with
          | .write v => (k₂, v) :: storRemove (applyWs st rest) k₂
          | .delete => storRemove (applyWs st rest) k₂) k = _
    by_cases hk : k₂ = k
    · subst hk
      cases op with
      | write v => simp [storLookup, wsLookup]
      | delete => simp [storLookup_storRemove, wsLookup]
    · cases op with
      | write v =>
        simp only [storLookup, if_neg hk, storLookup_storRemove,
          if_neg (fun h => hk h), wsLookup, ih]
      | delete =>
        simp only [storLookup_storRemove, if_neg (fun h => hk h), wsLookup,
          if_neg hk, ih]

/-! ## Outcomes, envelope and payload codecs

The signed envelope and the typed payload codecs are not in src/; they are
modelled from the spec (sections 3, 4.2 and 6): canonical length-prefixed
binary encoding, with sizes and counts carried in a single leading cell. -/

/-- Transaction outcome as the fixtures can produce it: Ok with the updated
context, an error result, or a panic that aborts the execution unit. -/
inductive TxOutcome where
  | ok (ctx : Ctx)
  | err
  | panicked
deriving DecidableEq, Repr

/-- VP outcome (spec sections 3 and 4.5): Accept, Reject, an error, or the
deterministic aborts of the resource limiter. -/
inductive VpOutcome where
  | accept
  | reject
  | err
  | resourceExceeded
  | recursionLimitExceeded
deriving DecidableEq, Repr

/-- Modelled from the spec (section 6): read one length-prefixed byte string,
returning it and the remaining input; fails on truncated input. -/
def decodeVec (bytes : List Nat) : Option (List Nat × List Nat) :=
  match bytes with
  | [] => none
  | n :: rest =>
    if n ≤ rest.length then some (rest.take n, rest.drop n) else none

/-- The signed envelope (SignedTxData in lib.rs): optional payload bytes and
a signature (spec section 3). -/
structure SignedTxData where
  data : Option (List Nat)
  sig : List Nat
deriving DecidableEq, Repr

/-- Modelled from the spec (section 6): decode a signed envelope from its
length-prefixed wire form; the leading cell is the option tag.  Fails with
DecodeError (None) on malformed framing or trailing input. -/
def decodeSigned (raw : List Nat) : Option SignedTxData :=
  match raw with
  | 0 :: rest =>
    match decodeVec rest with
    | some (sig, []) => some ⟨none, sig⟩
    | _ => none
  | 1 :: rest =>
    match decodeVec rest with
    | some (d, rest₂) =>
      match decodeVec rest₂ with
      | some (sig, []) => some ⟨some d, sig⟩
      | _ => none
    | none => none
  | _ => none

/-- Modelled from the spec (section 1): black-box signature verification
verify(data, signature) -> bool; instantiated with a concrete checksum so
that both outcomes are constructible. -/
def verify (data sig : List Nat) : Bool :=
  sig == [data.foldl (fun a b => (a + b) % 256) 0]

/-- Signature check of the commit protocol's Verifying phase: if the payload
is present the signature must verify over it (spec sections 3 and 4.2). -/
def sigOk (env : SignedTxData) : Bool :=
  match env.data with
  | some p => verify p env.sig
  | none => true

/-- The example application payload (spec section 6): a balance transfer. -/
structure Transfer where
  source : Address
  target : Address
  token : Address
  amount : Nat
  key : Option (List Char)
  shielded : Bool
deriving DecidableEq, Repr

/-- Modelled from the spec (section 6): decode an address as a
length-prefixed byte string. -/
def decodeAddr (bytes : List Nat) : Option (Address × List Nat) :=
  match decodeVec bytes with
  | some (b, rest) => some (b.map Char.ofNat, rest)
  | none => none

/-- Modelled from the spec (section 6): decode the transfer payload
{ source, target, token, amount, key, shielded }, consuming all input. -/
def decodeTransfer (bytes : List Nat) : Option Transfer :=
  match decodeAddr bytes with
  | none => none
  | some (source, r₁) =>
    match decodeAddr r₁ with
    | none => none
    | some (target, r₂) =>
      match decodeAddr r₂ with
      | none => none
      | some (token, r₃) =>
        match r₃ with
        | [] => none
        | amount :: r₄ =>
          match r₄ with
          | 0 :: r₅ =>
            match r₅ with
            | [b] =>
              if b ≤ 1 then
                some ⟨source, target, token, amount, none, b = 1⟩
              else none
            | _ => none
          | 1 :: r₅ =>
            match decodeVec r₅ with
            | some (ks, [b]) =>
              if b ≤ 1 then
                some ⟨source, target, token, amount,
                  some (ks.map Char.ofNat), b = 1⟩
              else none
            | _ => none
          | _ => none

/-- Modelled from the spec: the token Amount as stored bytes. -/
def encodeAmount (n : Nat) : Value := [n]

/-- Modelled from the spec: typed read of a token Amount from stored bytes,
failing on any other shape. -/
def decodeAmount (v : Value) : Option Nat :=
  match v with
  | [n] => some n
  | _ => none

/-- Modelled from the spec (sections 3 and 6): the balance key of (token,
owner) is the pair of the two address segments. -/
def balance_key (token owner : Address) : Key :=
  ⟨[.addrSeg token, .addrSeg owner]⟩

/-- Modelled from the spec (section 6): decode one key segment from binary
(tag cell: 0 = string literal, 1 = address encoding). -/
def decodeSegBytes (bytes : List Nat) : Option (DbKeySeg × List Nat) :=
  match bytes with
  | 0 :: rest =>
    match decodeVec rest with
    | some (b, r) => some (.strSeg (b.map Char.ofNat), r)
    | none => none
  | 1 :: rest =>
    match decodeVec rest with
    | some (b, r) => some (.addrSeg (b.map Char.ofNat), r)
    | none => none
  | _ => none

/-- Decode a counted sequence of key segments. -/
def decodeSegsBytes : Nat → List Nat → Option (List DbKeySeg × List Nat)
  | 0, rest => some ([], rest)
  | n + 1, bytes =>
    match decodeSegBytes bytes with
    | some (seg, rest) =>
      match decodeSegsBytes n rest with
      | some (segs, rest₂) => some (seg :: segs, rest₂)
      | none => none
    | none => none

/-- Modelled from the spec (section 6): binary decoding of a Key
(Key::try_from_slice in lib.rs), consuming all input. -/
def Key.try_from_slice (bytes : List Nat) : Option Key :=
  match bytes with
  | n :: rest =>
    match decodeSegsBytes n rest with
    | some (segs, []) => some ⟨segs⟩
    | _ => none
  | [] => none

/-! ## Fixture embeddings (wasm_for_tests/wasm_source/src/lib.rs) -/

/-- The tx_no_op fixture: apply_tx ignores its context and data and returns
Ok(()). -/
def txNoOp (ctx : Ctx) (_txData : List Nat) : TxOutcome :=
  .ok ctx

/-- The tx_read_storage_key fixture: decode a Key from tx_data (unwrap:
panic on failure), read it (unwrap: panic when absent), return Ok. -/
def txReadStorageKey (ctx : Ctx) (txData : List Nat) : TxOutcome :=
  match Key.try_from_slice txData with
  | none => .panicked
  | some k =>
    match ctx.read k with
    | none => .panicked
    | some _ => .ok ctx

/-- The tx_mint_tokens fixture: decode SignedTxData (Err on failure), unwrap
the payload and decode a Transfer from it (panic on failure), read the
target's balance (default zero when absent, Err when undecodable), add the
amount and stage the new balance. -/
def txMintTokens (ctx : Ctx) (txData : List Nat) : TxOutcome :=
  match decodeSigned txData with
  | none => .err
  | some signed =>
    match signed.data with
    | none => .panicked
    | some d =>
      match decodeTransfer d with
      | none => .panicked
      | some t =>
        let targetKey := balance_key t.token t.target
        match ctx.read targetKey with
        | none => .ok (ctx.write targetKey (encodeAmount t.amount))
        | some v =>
          match decodeAmount v with
          | none => .err
          | some bal =>
            .ok (ctx.write targetKey (encodeAmount (bal + t.amount)))

/-- The vp_always_true fixture: validate_tx accepts unconditionally. -/
def vpAlwaysTrue (_ctx : Ctx) (_txData : List Nat) (_addr : Address)
    (_keysChanged : List Key) (_verifiers : List Address) : VpOutcome :=
  .accept

/-- The vp_always_false fixture: validate_tx rejects unconditionally. -/
def vpAlwaysFalse (_ctx : Ctx) (_txData : List Nat) (_addr : Address)
    (_keysChanged : List Key) (_verifiers : List Address) : VpOutcome :=
  .reject

/-- The vp_read_storage_key fixture: decode a Key from tx_data and read its
strictly pre-transaction value; both unwraps abort the VP on failure, which
the engine reports as an erroneous verdict. -/
def vpReadStorageKey (ctx : Ctx) (txData : List Nat) (_addr : Address)
    (_keysChanged : List Key) (_verifiers : List Address) : VpOutcome :=
  match Key.try_from_slice txData with
  | none => .err
  | some k =>
    match ctx.read_pre k with
    | none => .err
    | some _ => .accept

/-! ## Nested evaluator and resource limiter

Modelled from the spec (sections 4.5, 4.6 and 9): the evaluator carries the
remaining budget, the remaining recursion depth and the snapshots as explicit
parameters threaded through every nested call. -/

/-- VP code as the evaluator's registry holds it: a constant verdict, a body
performing an allocation of a given size (the vp_memory_limit body), or a
body that evaluates an inner body on an input (the vp_eval body). -/
inductive VpCode where
  | const (v : VpOutcome)
  | alloc (n : Nat)
  | evalCode (inner : VpCode) (innerInput : List Nat)
deriving DecidableEq, Repr

/-- Modelled from the spec (sections 4.5 and 4.6): run VP code under a
remaining budget and a remaining recursion depth against fixed snapshots,
returning the verdict and the remaining budget.  An allocation beyond the
budget aborts with ResourceExceeded; a nested call costs one budget unit and
one depth unit, re-entering with the same snapshots; exhausted depth aborts
with RecursionLimitExceeded. -/
def evalVp : Nat → Nat → Ctx → VpCode → List Nat → VpOutcome × Nat
  | budget, _, _, .const v, _ => (v, budget)
  | budget, _, _, .alloc n, _ =>
    if n ≤ budget then (.accept, budget - n) else (.resourceExceeded, 0)
  | budget, depth, ctx, .evalCode inner innerInput, _ =>
    match depth, budget with
    | 0, _ => (.recursionLimitExceeded, budget)
    | _ + 1, 0 => (.resourceExceeded, 0)
    | d + 1, b + 1 => evalVp b d ctx inner innerInput

/-- A chain of n nested eval calls around a body allocating a bytes. -/
def evalChain : Nat → Nat → VpCode
  | 0, a => .alloc a
  | n + 1, a => .evalCode (evalChain n a) []

/-- The evaluation request (EvalVp in lib.rs, EvalRequest in spec section
3): an opaque code identifier resolved through a registry, and input
bytes. -/
structure EvalVp where
  vp_code : Nat
  input : List Nat
deriving DecidableEq, Repr

/-- Modelled from the spec (section 6): decode an evaluation request; the
leading cell is the code identifier, the rest is the input. -/
def decodeEvalVp (bytes : List Nat) : Option EvalVp :=
  match bytes with
  | r :: rest => some ⟨r, rest⟩
  | [] => none

/-- The vp_eval fixture: decode an EvalVp from tx_data (unwrap: abort on
failure) and return the result of evaluating the referenced code on the
input under the shared budget and depth. -/
def vpEvalFixture (codeOf : Nat → VpCode) (budget depth : Nat) (ctx : Ctx)
    (txData : List Nat) : VpOutcome :=
  match decodeEvalVp txData with
  | none => .err
  | some e => (evalVp budget depth ctx (codeOf e.vp_code) e.input).1

/-- The vp_memory_limit fixture: decode an allocation size from tx_data and
accept iff the allocation fits the remaining budget, aborting with
ResourceExceeded otherwise. -/
def vpMemoryLimit (budget : Nat) (_ctx : Ctx) (txData : List Nat) :
    VpOutcome :=
  match txData with
  | [n] => if n ≤ budget then .accept else .resourceExceeded
  | _ => .err

/-! ## Commit protocol

Modelled from the spec (section 4.7): Decoding -> Verifying -> Executing ->
Validating -> Committed or RolledBack, one instance per transaction
attempt. -/

/-- Result of one transaction attempt. -/
inductive AttemptResult where
  | committed (st : Storage)
  | rolledBack
deriving DecidableEq, Repr

/-- The addresses embedded in a key's segments. -/
def keyAddrs (k : Key) : List Address :=
  k.segments.filterMap
    (fun s =>
      match s with
      | .addrSeg a => some a
      | .strSeg _ => none)

/-- Modelled from the spec (section 4.7): the addresses for which a VP is
invoked — every address implicated by a changed key, together with the
declared verifiers. -/
def invokedAddrs (ws : WriteSet) (vs : List Address) : List Address :=
  ((((ws.map Prod.fst).dedup).map keyAddrs).flatten ++ vs).dedup

/-- A transaction body: fixture code run against the mutable context. -/
abbrev TxBody := Ctx → List Nat → TxOutcome

/-- A VP registry: each address's validity predicate, run against the
immutable context and the transaction data. -/
abbrev VpRegistry := Address → List Nat → Ctx → VpOutcome

/-- Modelled from the spec (section 4.7): one transaction attempt.
Decoding failure or signature failure rolls back before the body runs; a
body error or panic rolls back; otherwise one VP is invoked per implicated
address on the finalized context and the write-set is applied atomically iff
every verdict is Accept. -/
def attempt (vpOf : VpRegistry) (body : TxBody) (store : Storage)
    (raw : List Nat) : AttemptResult :=
  match decodeSigned raw with
  | none => .rolledBack
  | some env =>
    if sigOk env then
      match body ⟨store, [], []⟩ raw with
      | .ok ctx =>
        if (invokedAddrs ctx.writeSet ctx.verifiers).all
            (fun a => decide (vpOf a raw ctx = .accept)) then
          .committed (applyWs store ctx.writeSet)
        else .rolledBack
      | .err => .rolledBack
      | .panicked => .rolledBack
    else .rolledBack

/-- The storage visible after an attempt: the atomically applied write-set
when committed, the untouched store when rolled back (spec section 4.7). -/
def finalStore : AttemptResult → Storage → Storage
  | .committed st, _ => st
  | .rolledBack, st => st

/-- Invoking a VP through the shared immutable context reference, as the
validity_predicate entry point does (validate_tx takes the context by
shared reference in lib.rs): the verdict is produced and the context is
handed back as it was. -/
def runVp (vp : Ctx → VpOutcome) (ctx : Ctx) : VpOutcome × Ctx :=
  (vp ctx, ctx)

/-! ## Claim theorems -/

theorem parseSegs_eq_none {ps : List (List Char)} {p : List Char}
    (hp : p ∈ ps) (h : parseSeg p = none) : parseSegs ps = none := by
  induction ps with
  | nil => simp at hp
  | cons q rest ih =>
    rcases List.mem_cons.mp hp with hq | hq
    · subst hq
      simp only [parseSegs, h]
    · simp only [parseSegs, ih hq]
      cases parseSeg q <;> rfl

/-- C5: for every text t on which Key.parse succeeds producing k,
Key.to_string k parses back to k (to_string is a left inverse of parse on
parse's image), and parse fails with InvalidKeyFormat whenever some segment
of the text is malformed. -/
theorem key_parse_to_string_left_inverse :
    (∀ (t : List Char) (k : Key), Key.parse t = .ok k →
      Key.parse (Key.to_string k) = .ok k)
    ∧ (∀ t : List Char, (∃ p ∈ splitSlash t, parseSeg p = none) →
      Key.parse t = .error .invalidKeyFormat) := by
  constructor
  · intro t k h
    rw [Key.parse] at h
    rcases hps : parseSegs (splitSlash t) with _ | segs <;> rw [hps] at h
    · cases h
    · cases h
      obtain ⟨hmap, hback⟩ := parseSegs_roundtrip hps
      rw [Key.parse, Key.to_string]
      have hsplit : splitSlash (joinSlash (List.map segToText segs)) =
          List.map segToText segs := by
        apply splitSlash_joinSlash
        · rw [hmap]; exact splitSlash_ne_nil t
        · rw [hmap]; exact mem_splitSlash_noSlash t
      rw [hsplit, hback]
  · intro t ⟨p, hp, hpn⟩
    rw [Key.parse, parseSegs_eq_none hp hpn]

/-- C5 witness: a concrete parse of a two-segment key (a string literal and
an address) round-trips, and a text with an empty segment is rejected with
InvalidKeyFormat. -/
theorem key_parse_to_string_left_inverse_witness :
    Key.parse (Key.to_string ⟨[.strSeg ['a'], .addrSeg ['b']]⟩) =
      .ok ⟨[.strSeg ['a'], .addrSeg ['b']]⟩
    ∧ Key.parse ['a', '/', '/', 'b'] = .error .invalidKeyFormat := by
  refine ⟨key_parse_to_string_left_inverse.1 ['a', '/', '#', 'b']
      ⟨[.strSeg ['a'], .addrSeg ['b']]⟩ rfl,
    key_parse_to_string_left_inverse.2 ['a', '/', '/', 'b'] ⟨[], by decide, rfl⟩⟩

/-- C6: within one transaction execution context, write(k, v) followed by
read(k) returns Some v, and in general read consults the staged write-set
first and falls back to the pre-transaction committed value. -/
theorem tx_write_then_read :
    (∀ (ctx : Ctx) (k : Key) (v : Value), (ctx.write k v).read k = some v)
    ∧ (∀ (ctx : Ctx) (k : Key), ctx.read k =
        match wsLookup ctx.writeSet k with
        | some (.write v) => some v
        | some .delete => none
        | none => storLookup ctx.pre k) := by
  constructor
  · intro ctx k v
    rw [Ctx.read, Ctx.write, storLookup_applyWs]
    simp [wsLookup]
  · intro ctx k
    rw [Ctx.read, storLookup_applyWs]

/-- C3: read_pre in a VP context returns the value committed before the
transaction, ignoring the write-set entirely (it is invariant under any
change of write-set and verifier set), while read in the same context
returns the staged value for a written key. -/
theorem vp_read_pre_ignores_writes :
    ∀ (pre : Storage) (ws ws₂ : WriteSet) (vs vs₂ : List Address) (k : Key)
      (v : Value),
    Ctx.read_pre ⟨pre, ws, vs⟩ k = Ctx.read_pre ⟨pre, ws₂, vs₂⟩ k
    ∧ Ctx.read_pre ⟨pre, ws, vs⟩ k = storLookup pre k
    ∧ (wsLookup ws k = some (.write v) → Ctx.vpRead ⟨pre, ws, vs⟩ k = some v) := by
  intro pre ws ws₂ vs vs₂ k v
  refine ⟨rfl, rfl, fun h => ?_⟩
  rw [Ctx.vpRead, storLookup_applyWs, h]

/-- C3 witness: with pre-state balance 100 and a staged write of 150, the
VP's read_pre still sees 100 while its read sees 150. -/
theorem vp_read_pre_ignores_writes_witness :
    Ctx.read_pre ⟨[(⟨[.strSeg ['k']]⟩, [100])],
        [(⟨[.strSeg ['k']]⟩, .write [150])], []⟩ ⟨[.strSeg ['k']]⟩ =
      some [100]
    ∧ Ctx.vpRead ⟨[(⟨[.strSeg ['k']]⟩, [100])],
        [(⟨[.strSeg ['k']]⟩, .write [150])], []⟩ ⟨[.strSeg ['k']]⟩ =
      some [150] := by
  have h := vp_read_pre_ignores_writes [(⟨[.strSeg ['k']]⟩, [100])]
    [(⟨[.strSeg ['k']]⟩, .write [150])] [] [] [] ⟨[.strSeg ['k']]⟩ [150]
  exact ⟨h.2.1.trans (by decide), h.2.2 (by decide)⟩

/-- C9: the tx_no_op fixture returns Ok with its context untouched, so the
write-set, the changed-keys set and the readable storage are exactly what
they were before; for a fresh transaction the changed-keys set is empty and
reads see the committed store. -/
theorem tx_no_op_frame :
    ∀ (ctx : Ctx) (d : List Nat) (store : Storage) (k : Key),
    txNoOp ctx d = .ok ctx
    ∧ Ctx.changedKeys ⟨store, [], []⟩ = []
    ∧ Ctx.read ⟨store, [], []⟩ k = storLookup store k := by
  intro ctx d store k
  exact ⟨rfl, rfl, rfl⟩

/-- C10: the tx_read_storage_key fixture returns Ok exactly when tx_data
decodes to a Key that is present in readable storage; a failed decode or an
absent key panics, aborting the execution unit rather than returning an Err
outcome. -/
theorem tx_read_storage_key_ok_iff :
    ∀ (ctx : Ctx) (d : List Nat),
    (txReadStorageKey ctx d = .ok ctx ↔
      ∃ k, Key.try_from_slice d = some k ∧ ∃ v, ctx.read k = some v)
    ∧ (Key.try_from_slice d = none → txReadStorageKey ctx d = .panicked)
    ∧ (∀ k, Key.try_from_slice d = some k → ctx.read k = none →
        txReadStorageKey ctx d = .panicked)
    ∧ txReadStorageKey ctx d ≠ .err := by
  intro ctx d
  rcases hk : Key.try_from_slice d with _ | k
  · have ht : txReadStorageKey ctx d = .panicked := by
      simp only [txReadStorageKey, hk]
    refine ⟨?_, fun _ => ht, ?_, ?_⟩
    · constructor
      · intro h; rw [ht] at h; cases h
      · rintro ⟨k, hk₂, -⟩; cases hk₂
    · intro k hk₂; cases hk₂
    · rw [ht]; intro h; cases h
  · rcases hr : ctx.read k with _ | v
    · have ht : txReadStorageKey ctx d = .panicked := by
        simp only [txReadStorageKey, hk, hr]
      refine ⟨?_, ?_, ?_, ?_⟩
      · constructor
        · intro h; rw [ht] at h; cases h
        · rintro ⟨k₂, hk₂, v, hv⟩
          cases hk₂
          rw [hr] at hv; cases hv
      · intro h; cases h
      · intro k₂ hk₂ _; exact ht
      · rw [ht]; intro h; cases h
    · have ht : txReadStorageKey ctx d = .ok ctx := by
        simp only [txReadStorageKey, hk, hr]
      refine ⟨⟨fun _ => ⟨k, rfl, v, hr⟩, fun _ => ht⟩, ?_, ?_, ?_⟩
      · intro h; cases h
      · intro k₂ hk₂ hr₂
        cases hk₂
        rw [hr] at hr₂; cases hr₂
      · rw [ht]; intro h; cases h

/-- C10 witness: on empty tx_data the fixture panics; on tx_data decoding to
a key present in storage it returns Ok; on one decoding to an absent key it
panics. -/
theorem tx_read_storage_key_ok_iff_witness :
    txReadStorageKey ⟨[(⟨[.strSeg ['a']]⟩, [5])], [], []⟩ [] = .panicked
    ∧ txReadStorageKey ⟨[(⟨[.strSeg ['a']]⟩, [5])], [], []⟩ [1, 0, 1, 97] =
        .ok ⟨[(⟨[.strSeg ['a']]⟩, [5])], [], []⟩
    ∧ txReadStorageKey ⟨[(⟨[.strSeg ['a']]⟩, [5])], [], []⟩ [1, 0, 1, 98] =
        .panicked := by
  refine ⟨(tx_read_storage_key_ok_iff _ []).2.1 (by decide),
    (tx_read_storage_key_ok_iff _ [1, 0, 1, 97]).1.mpr
      ⟨⟨[.strSeg ['a']]⟩, by decide, [5], by decide⟩,
    (tx_read_storage_key_ok_iff _ [1, 0, 1, 98]).2.2.1 ⟨[.strSeg ['b']]⟩
      (by decide) (by decide)⟩

theorem evalVp_budget_le (code : VpCode) :
    ∀ (b d : Nat) (ctx : Ctx) (i : List Nat),
    (evalVp b d ctx code i).2 ≤ b := by
  induction code with
  | const v => intro b d ctx i; simp [evalVp]
  | alloc n =>
    intro b d ctx i
    simp only [evalVp]
    split <;> simp [Nat.sub_le]
  | evalCode inner innerInput ih =>
    intro b d ctx i
    cases d with
    | zero => simp [evalVp]
    | succ d =>
      cases b with
      | zero => simp [evalVp]
      | succ b =>
        simp only [evalVp]
        exact le_trans (ih b d ctx innerInput) (Nat.le_succ b)

theorem evalChain_resource (n : Nat) :
    ∀ (a b d : Nat) (ctx : Ctx) (i : List Nat), n ≤ d → b < n + a →
    (evalVp b d ctx (evalChain n a) i).1 = .resourceExceeded := by
  induction n with
  | zero =>
    intro a b d ctx i _ hb
    have hna : ¬ a ≤ b := by omega
    simp [evalChain, evalVp, hna]
  | succ n ih =>
    intro a b d ctx i hd hb
    cases d with
    | zero => omega
    | succ d =>
      cases b with
      | zero => simp [evalChain, evalVp]
      | succ b =>
        simp only [evalChain, evalVp]
        exact ih a b d ctx [] (by omega) (by omega)

theorem evalChain_recursion (d : Nat) :
    ∀ (n b a : Nat) (ctx : Ctx) (i : List Nat), d < n → d ≤ b →
    (evalVp b d ctx (evalChain n a) i).1 = .recursionLimitExceeded := by
  induction d with
  | zero =>
    intro n b a ctx i hn _
    cases n with
    | zero => omega
    | succ n => simp [evalChain, evalVp]
  | succ d ih =>
    intro n b a ctx i hn hb
    cases n with
    | zero => omega
    | succ n =>
      cases b with
      | zero => omega
      | succ b =>
        simp only [evalChain, evalVp]
        exact ih n b a ctx [] (by omega) (by omega)

/-- C4: across a nested eval chain the budget is shared and strictly
decreasing — a nested call re-enters with one unit less, never more, and the
remaining budget after any evaluation never exceeds the starting budget —
so a chain of eval calls around a large allocation ends in ResourceExceeded
once the ceiling is below the chain cost plus the allocation, and a chain
deeper than the remaining recursion ceiling ends in
RecursionLimitExceeded. -/
theorem eval_budget_shared_and_bounded :
    (∀ (b d : Nat) (ctx : Ctx) (inner : VpCode) (ii i : List Nat),
      evalVp (b + 1) (d + 1) ctx (.evalCode inner ii) i =
        evalVp b d ctx inner ii
      ∧ b < b + 1)
    ∧ (∀ (code : VpCode) (b d : Nat) (ctx : Ctx) (i : List Nat),
      (evalVp b d ctx code i).2 ≤ b)
    ∧ (∀ (n a b d : Nat) (ctx : Ctx) (i : List Nat), n ≤ d → b < n + a →
      (evalVp b d ctx (evalChain n a) i).1 = .resourceExceeded)
    ∧ (∀ (n b d a : Nat) (ctx : Ctx) (i : List Nat), d < n → d ≤ b →
      (evalVp b d ctx (evalChain n a) i).1 = .recursionLimitExceeded) := by
  refine ⟨fun b d ctx inner ii i => ⟨rfl, Nat.lt_succ_self b⟩,
    fun code b d ctx i => evalVp_budget_le code b d ctx i,
    fun n a b d ctx i hd hb => evalChain_resource n a b d ctx i hd hb,
    fun n b d a ctx i hn hb => evalChain_recursion d n b a ctx i hn hb⟩

/-- C4 witness: with budget 5 a 3-deep eval chain around an allocation of
100 aborts with ResourceExceeded; with depth ceiling 2 a 5-deep chain aborts
with RecursionLimitExceeded. -/
theorem eval_budget_shared_and_bounded_witness :
    (evalVp 5 10 ⟨[], [], []⟩ (evalChain 3 100) []).1 = .resourceExceeded
    ∧ (evalVp 10 2 ⟨[], [], []⟩ (evalChain 5 1) []).1 =
        .recursionLimitExceeded :=
  ⟨eval_budget_shared_and_bounded.2.2.1 3 100 5 10 ⟨[], [], []⟩ []
      (by decide) (by decide),
    eval_budget_shared_and_bounded.2.2.2 5 10 2 1 ⟨[], [], []⟩ []
      (by decide) (by decide)⟩

/-- A VP that performs the same eval call twice within one invocation,
against the same snapshots and the same remaining budget and depth. -/
def twoEvalCalls (codeOf : Nat → VpCode) (budget depth : Nat) (ctx : Ctx)
    (e : EvalVp) : VpOutcome × VpOutcome :=
  ((evalVp budget depth ctx (codeOf e.vp_code) e.input).1,
   (evalVp budget depth ctx (codeOf e.vp_code) e.input).1)

/-- C7: nested evaluation is deterministic — two eval calls with identical
reference and input against the same snapshots, budget and depth receive
identical outcomes, and two runs of the vp_eval fixture on equal arguments
agree. -/
theorem eval_deterministic :
    ∀ (codeOf : Nat → VpCode) (budget depth : Nat) (ctx : Ctx) (e : EvalVp)
      (txData : List Nat),
    (twoEvalCalls codeOf budget depth ctx e).1 =
      (twoEvalCalls codeOf budget depth ctx e).2
    ∧ vpEvalFixture codeOf budget depth ctx txData =
        vpEvalFixture codeOf budget depth ctx txData :=
  fun _ _ _ _ _ _ => ⟨rfl, rfl⟩

/-- C8: the VP execution context is read-only.  A VP has the type of a pure
function from the shared immutable context to a verdict (validate_tx takes
its context by shared reference, unlike apply_tx's mutable one), so writing
through it is not expressible; invoking any VP hands the context back with
its pre-state snapshot, its write-set, and both its storage views
unchanged. -/
theorem vp_context_read_only :
    ∀ (vp : Ctx → VpOutcome) (ctx : Ctx) (k : Key),
    (runVp vp ctx).2 = ctx
    ∧ (runVp vp ctx).2.pre = ctx.pre
    ∧ (runVp vp ctx).2.writeSet = ctx.writeSet
    ∧ (runVp vp ctx).2.read_pre k = ctx.read_pre k
    ∧ (runVp vp ctx).2.vpRead k = ctx.vpRead k :=
  fun _ _ _ => ⟨rfl, rfl, rfl, rfl, rfl⟩

/-- C1: under a decoded and verified envelope, the attempt ends in Committed
iff the transaction body succeeded and every invoked VP (one per address
implicated by the changed keys or declared verifier) accepted: when the body
succeeds, commitment with the atomically applied write-set is equivalent to
all-Accept and any non-Accept verdict rolls back; a body error or panic
rolls back; any Committed result certifies a successful body, the applied
write-set and all-Accept verdicts; and a rolled-back attempt leaves every
key's committed value unchanged. -/
theorem commit_iff_all_accept :
    ∀ (vpOf : VpRegistry) (body : TxBody) (store : Storage) (raw : List Nat)
      (env : SignedTxData),
    decodeSigned raw = some env →
    sigOk env = true →
    (∀ ctx : Ctx, body ⟨store, [], []⟩ raw = .ok ctx →
      ((attempt vpOf body store raw =
          .committed (applyWs store ctx.writeSet)) ↔
        ∀ a ∈ invokedAddrs ctx.writeSet ctx.verifiers,
          vpOf a raw ctx = .accept)
      ∧ ((∃ a ∈ invokedAddrs ctx.writeSet ctx.verifiers,
            vpOf a raw ctx ≠ .accept) →
          attempt vpOf body store raw = .rolledBack))
    ∧ (body ⟨store, [], []⟩ raw = .err →
        attempt vpOf body store raw = .rolledBack)
    ∧ (body ⟨store, [], []⟩ raw = .panicked →
        attempt vpOf body store raw = .rolledBack)
    ∧ (∀ st, attempt vpOf body store raw = .committed st →
        ∃ ctx : Ctx, body ⟨store, [], []⟩ raw = .ok ctx
          ∧ st = applyWs store ctx.writeSet
          ∧ ∀ a ∈ invokedAddrs ctx.writeSet ctx.verifiers,
              vpOf a raw ctx = .accept)
    ∧ (attempt vpOf body store raw = .rolledBack →
        ∀ k, storLookup (finalStore (attempt vpOf body store raw) store) k =
          storLookup store k) := by
  intro vpOf body store raw env hdec hsig
  rcases hbody : body ⟨store, [], []⟩ raw with ctx₀ | _ | _
  · have hatt : attempt vpOf body store raw =
        if (invokedAddrs ctx₀.writeSet ctx₀.verifiers).all
            (fun a => decide (vpOf a raw ctx₀ = .accept)) then
          AttemptResult.committed (applyWs store ctx₀.writeSet)
        else .rolledBack := by
      simp only [attempt, hdec, hsig, if_true, hbody]
    cases hA : (invokedAddrs ctx₀.writeSet ctx₀.verifiers).all
        (fun a => decide (vpOf a raw ctx₀ = .accept)) with
    | false =>
      rw [hA] at hatt
      simp only [Bool.false_eq_true, if_false] at hatt
      refine ⟨?_, ?_, ?_, ?_, ?_⟩
      · intro ctx hctx
        cases hctx
        refine ⟨⟨fun h => ?_, fun hall => ?_⟩, fun _ => hatt⟩
        · rw [hatt] at h; cases h
        · have hA₂ : (invokedAddrs ctx₀.writeSet ctx₀.verifiers).all
              (fun a => decide (vpOf a raw ctx₀ = .accept)) = true :=
            List.all_eq_true.mpr (fun a ha => decide_eq_true (hall a ha))
          have hcontra := hA.symm.trans hA₂
          cases hcontra
      · intro h; cases h
      · intro h; cases h
      · intro st hst; rw [hatt] at hst; cases hst
      · intro _ k; rw [hatt]; rfl
    | true =>
      rw [hA] at hatt
      simp only [if_true] at hatt
      have hall : ∀ a ∈ invokedAddrs ctx₀.writeSet ctx₀.verifiers,
          vpOf a raw ctx₀ = .accept :=
        fun a ha => of_decide_eq_true (List.all_eq_true.mp hA a ha)
      refine ⟨?_, ?_, ?_, ?_, ?_⟩
      · intro ctx hctx
        cases hctx
        refine ⟨⟨fun _ => hall, fun _ => hatt⟩, ?_⟩
        rintro ⟨a, ha, hne⟩
        exact absurd (hall a ha) hne
      · intro h; cases h
      · intro h; cases h
      · intro st hst
        rw [hatt] at hst
        injection hst with hst₂
        exact ⟨ctx₀, rfl, hst₂.symm, hall⟩
      · intro h k; rw [hatt] at h; cases h
  · have hatt : attempt vpOf body store raw = .rolledBack := by
      simp only [attempt, hdec, hsig, if_true, hbody]
    refine ⟨?_, fun _ => hatt, ?_, ?_, ?_⟩
    · intro ctx hctx; cases hctx
    · intro h; cases h
    · intro st hst; rw [hatt] at hst; cases hst
    · intro _ k; rw [hatt]; rfl
  · have hatt : attempt vpOf body store raw = .rolledBack := by
      simp only [attempt, hdec, hsig, if_true, hbody]
    refine ⟨?_, ?_, fun _ => hatt, ?_, ?_⟩
    · intro ctx hctx; cases hctx
    · intro h; cases h
    · intro st hst; rw [hatt] at hst; cases hst
    · intro _ k; rw [hatt]; rfl

/-- The pre-state of the unbalanced-mint scenario: balance(T, C) = 100. -/
def mintStore : Storage := [(balance_key ['t'] ['c'], [100])]

/-- The signed envelope bytes of the mint transfer: source s, target c,
token t, amount 50, no key, unshielded, with a verifying signature. -/
def mintRaw : List Nat := [1, 9, 1, 115, 1, 99, 1, 116, 50, 0, 0, 1, 127]

/-- A registry answering every address with the vp_always_false fixture. -/
def mintVpOf : VpRegistry :=
  fun a txd ctx => vpAlwaysFalse ctx txd a ctx.changedKeys ctx.verifiers

/-- The context produced by the mint body: balance(T, C) = 150 staged over
the pre-state. -/
def mintCtx : Ctx :=
  ⟨mintStore, [(balance_key ['t'] ['c'], .write [150])], []⟩

/-- C1 witness: the tx_mint_tokens fixture stages balance 150 over
pre-state 100, the token's VP (vp_always_false) rejects, the attempt rolls
back and balance(T, C) is still 100; an erroring body under the same
verified envelope also rolls back. -/
theorem commit_iff_all_accept_witness :
    attempt mintVpOf txMintTokens mintStore mintRaw = .rolledBack
    ∧ storLookup
        (finalStore (attempt mintVpOf txMintTokens mintStore mintRaw)
          mintStore)
        (balance_key ['t'] ['c']) = some [100]
    ∧ attempt mintVpOf (fun _ _ => .err) mintStore mintRaw = .rolledBack := by
  have h := commit_iff_all_accept mintVpOf txMintTokens mintStore mintRaw
    ⟨some [1, 115, 1, 99, 1, 116, 50, 0, 0], [127]⟩ rfl rfl
  have hro := (h.1 mintCtx rfl).2 ⟨['t'], by decide, by decide⟩
  have herr := (commit_iff_all_accept mintVpOf (fun _ _ => .err) mintStore
    mintRaw ⟨some [1, 115, 1, 99, 1, 116, 50, 0, 0], [127]⟩ rfl rfl).2.1 rfl
  exact ⟨hro, (h.2.2.2.2 hro (balance_key ['t'] ['c'])).trans (by decide),
    herr⟩

/-- C2: when the envelope decodes with a present payload whose signature
does not verify, the attempt is rolled back, and its outcome is independent
of the transaction body — the payload is never executed and its inner
structure never decoded. -/
theorem verify_before_execute :
    ∀ (vpOf : VpRegistry) (store : Storage) (raw : List Nat)
      (env : SignedTxData) (p : List Nat),
    decodeSigned raw = some env →
    env.data = some p →
    verify p env.sig = false →
    (∀ body : TxBody, attempt vpOf body store raw = .rolledBack)
    ∧ (∀ body₁ body₂ : TxBody,
        attempt vpOf body₁ store raw = attempt vpOf body₂ store raw) := by
  intro vpOf store raw env p hdec hdata hver
  have hs : sigOk env = false := by
    simp only [sigOk, hdata, hver]
  have hro : ∀ body : TxBody, attempt vpOf body store raw = .rolledBack := by
    intro body
    simp only [attempt, hdec, hs, Bool.false_eq_true, if_false]
  exact ⟨hro, fun b₁ b₂ => (hro b₁).trans (hro b₂).symm⟩

/-- C2 witness: an envelope with payload [7] and non-verifying signature
[99] is rolled back under the mint body, and swapping in the no-op body
leaves the outcome unchanged. -/
theorem verify_before_execute_witness :
    attempt (fun _ _ _ => .accept) txMintTokens [] [1, 1, 7, 1, 99] =
      .rolledBack
    ∧ attempt (fun _ _ _ => .accept) txMintTokens [] [1, 1, 7, 1, 99] =
        attempt (fun _ _ _ => .accept) txNoOp [] [1, 1, 7, 1, 99] := by
  have h := verify_before_execute (fun _ _ _ => .accept) [] [1, 1, 7, 1, 99]
    ⟨some [7], [99]⟩ [7] rfl rfl rfl
  exact ⟨h.1 txMintTokens, h.2 txMintTokens txNoOp⟩

end Namada
